import Mathlib

/-!
Verification development for the pnpm-catalog-lint repository.

The Rust sources are shallowly embedded here:
* `src/packages.rs`   — protocol classifier and manifest model;
* `src/workspace.rs`  — catalog model (`WorkspaceCatalogs`, `CatalogEntry`);
* `src/rules/*.rs`    — issue taxonomy and the `IssuesList` container;
* `src/collect.rs`    — the rule engine (`collect_issues`);
* `src/main.rs`       — the exit-code decision.

Rust `IndexMap`s (insertion order preserved) are embedded as association
lists, and the single `HashSet` of the program (the `used_entries` working
set) is embedded as a list whose element order stands for the set's
iteration order; `collect_issuesFrom` takes that order as an explicit
parameter, and `collect_issues` instantiates it with the construction
order of `all_entries`.
-/

namespace PnpmCatalogLint

/-- Character-list test that the first list is an initial segment of the
second; evaluation model for Rust `str::starts_with` on the two strings'
character sequences. -/
def listLeads : List Char → List Char → Bool
  | [], _ => true
  | _ :: _, [] => false
  | a :: p, b :: t => a == b && listLeads p t

/-- Model of Rust `str::starts_with`: the characters of `p` lead those of `s`. -/
def beginsWith (s p : String) : Bool :=
  listLeads p.data s.data

/-- Model of Rust strip-prefix: when `p` leads `s`, the remainder of `s`
after `p`, otherwise nothing. -/
def stripLead (s p : String) : Option String :=
  if beginsWith s p then some (String.mk (s.data.drop p.data.length)) else none

/-- Embedding of `packages.rs::is_catalog_ref`: the version string equals
`"catalog:"` or starts with `"catalog:"`. -/
def is_catalog_ref (version : String) : Bool :=
  version == "catalog:" || beginsWith version "catalog:"

/-- Embedding of `packages.rs::is_special_protocol`: the version string
starts with one of the seven exempt protocol schemes. -/
def is_special_protocol (version : String) : Bool :=
  beginsWith version "workspace:"
    || beginsWith version "link:"
    || beginsWith version "file:"
    || beginsWith version "git:"
    || beginsWith version "git+"
    || beginsWith version "http:"
    || beginsWith version "https:"

/-- Embedding of `packages.rs::parse_catalog_ref`: `some none` for the
default catalog (empty suffix or `"default"`), `some (some name)` for a
named catalog, `none` when the string is not a catalog reference. -/
def parse_catalog_ref (version : String) : Option (Option String) :=
  if version = "catalog:" then some none
  else
    match stripLead version "catalog:" with
    | none => none
    | some name =>
        if name == "" || name == "default" then some none else some (some name)

/-- Classification "direct version": neither a catalog reference nor a
special protocol (the else-branch reached in `collect.rs` line 149). -/
def isDirectVersion (version : String) : Bool :=
  !is_catalog_ref version && !is_special_protocol version

/-- Embedding of `packages.rs::PackageType`: either the root manifest or a
named workspace member. -/
inductive PackageType
  | Root
  | Workspace (name : String)
deriving DecidableEq

/-- Embedding of `packages.rs::DependencyKind`: which of the four manifest
mappings a dependency comes from. -/
inductive DependencyKind
  | dependencies
  | devDependencies
  | peerDependencies
  | optionalDependencies
deriving DecidableEq

/-- Embedding of `packages.rs::Dependency`. -/
structure Dependency where
  name : String
  version : String
  kind : DependencyKind
deriving DecidableEq

/-- Embedding of `packages.rs::PackageJson`: the optional name and the
four dependency mappings, each an insertion-ordered association list. -/
structure PackageJson where
  name : Option String
  dependencies : List (String × String)
  dev_dependencies : List (String × String)
  peer_dependencies : List (String × String)
  optional_dependencies : List (String × String)
deriving DecidableEq

/-- Embedding of `packages.rs::Package` (the filesystem path is kept as a
plain string; the engine never reads it). -/
structure Package where
  path : String
  package_type : PackageType
  inner : PackageJson
deriving DecidableEq

/-- Embedding of `Package::all_dependencies`: the four mappings flattened
in order dependencies, devDependencies, peerDependencies,
optionalDependencies. -/
def Package.all_dependencies (p : Package) : List Dependency :=
  (p.inner.dependencies.map fun q => ⟨q.1, q.2, DependencyKind.dependencies⟩)
    ++ (p.inner.dev_dependencies.map fun q => ⟨q.1, q.2, DependencyKind.devDependencies⟩)
    ++ (p.inner.peer_dependencies.map fun q => ⟨q.1, q.2, DependencyKind.peerDependencies⟩)
    ++ (p.inner.optional_dependencies.map fun q => ⟨q.1, q.2, DependencyKind.optionalDependencies⟩)

/-- Embedding of `workspace.rs::CatalogEntry`: `none` catalog name means
the default catalog. -/
structure CatalogEntry where
  catalog_name : Option String
  dependency_name : String
deriving DecidableEq

/-- Embedding of `workspace.rs::WorkspaceCatalogs`: the default catalog
map and the named catalogs, as insertion-ordered association lists. -/
structure WorkspaceCatalogs where
  default : List (String × String)
  named : List (String × List (String × String))
deriving DecidableEq

/-- Model of `IndexMap::contains_key` on an association list. -/
def mapContains (m : List (String × String)) (k : String) : Bool :=
  m.any fun p => p.1 == k

/-- Model of `IndexMap::get` on an association list (keys are unique in an
`IndexMap`, so the first match is the match). -/
def mapGet (m : List (String × String)) (k : String) : Option String :=
  (m.find? fun p => p.1 == k).map fun p => p.2

/-- Model of `self.named.get(catalog_name)` in `workspace.rs`. -/
def lookupNamed (c : WorkspaceCatalogs) (catalog_name : String) :
    Option (List (String × String)) :=
  (c.named.find? fun p => p.1 == catalog_name).map fun p => p.2

/-- Embedding of `WorkspaceCatalogs::has_default_entry`. -/
def has_default_entry (c : WorkspaceCatalogs) (dep_name : String) : Bool :=
  mapContains c.default dep_name

/-- Embedding of `WorkspaceCatalogs::has_named_entry`. -/
def has_named_entry (c : WorkspaceCatalogs) (catalog_name dep_name : String) : Bool :=
  match lookupNamed c catalog_name with
  | some entries => mapContains entries dep_name
  | none => false

/-- Embedding of `WorkspaceCatalogs::has_catalog`. -/
def has_catalog (c : WorkspaceCatalogs) (catalog_name : String) : Bool :=
  c.named.any fun p => p.1 == catalog_name

/-- Embedding of `WorkspaceCatalogs::all_entries`. The Rust function
returns a `HashSet`; this list records the construction order (default
catalog first, then the named catalogs in declared order), and functions
consuming the set take its iteration order as an explicit argument. -/
def all_entries (c : WorkspaceCatalogs) : List CatalogEntry :=
  (c.default.map fun p => ⟨none, p.1⟩)
    ++ (c.named.flatMap fun p => p.2.map fun q => ⟨some p.1, q.1⟩)

/-- Embedding of `WorkspaceCatalogs::get_version`. -/
def get_version (c : WorkspaceCatalogs) (e : CatalogEntry) : Option String :=
  match e.catalog_name with
  | none => mapGet c.default e.dependency_name
  | some name =>
      match lookupNamed c name with
      | some entries => mapGet entries e.dependency_name
      | none => none

/-- Embedding of `WorkspaceCatalogs::find_dependency`: the default catalog
first when it pins the name, then every named catalog pinning the name in
declared order. -/
def find_dependency (c : WorkspaceCatalogs) (dep_name : String) : List (Option String) :=
  (if mapContains c.default dep_name then [Option.none] else [])
    ++ (c.named.filterMap fun p =>
          if mapContains p.2 dep_name then some (some p.1) else none)

/-- Embedding of `rules/mod.rs::IssueLevel`. -/
inductive IssueLevel
  | error
  | warning
deriving DecidableEq

/-- Embedding of the closed set of issue kinds behind the `Issue` trait:
`CatalogEntryExists` and `NoDirectVersion` carry the fields of their Rust
structs, `UnusedCatalogEntry` likewise. -/
inductive MissingCatalog
  | DefaultEntry
  | NamedCatalog (name : String)
  | NamedEntry (name : String)
deriving DecidableEq

/-- The three issue variants of `rules/*.rs`, as one closed sum. -/
inductive Issue
  | CatalogEntryExists (dependency_name catalog_ref : String)
      (kind : DependencyKind) (missing : MissingCatalog)
  | NoDirectVersion (dependency_name version : String)
      (kind : DependencyKind) (available_in : List (Option String))
  | UnusedCatalogEntry (dependency_name : String)
      (catalog_name : Option String) (version : String)
deriving DecidableEq

/-- Embedding of the `name()` method of each issue kind. -/
def Issue.name : Issue → String
  | .CatalogEntryExists .. => "catalog-entry-exists"
  | .NoDirectVersion .. => "no-direct-version"
  | .UnusedCatalogEntry .. => "unused-catalog-entry"

/-- Embedding of the `level()` method of each issue kind. -/
def Issue.level : Issue → IssueLevel
  | .CatalogEntryExists .. => IssueLevel.error
  | .NoDirectVersion .. => IssueLevel.error
  | .UnusedCatalogEntry .. => IssueLevel.warning

/-- Embedding of `rules/mod.rs::IssuesList`. -/
structure IssuesList where
  issues : List (PackageType × Issue)
  ignored_rules : List String
deriving DecidableEq

/-- Embedding of `IssuesList::new`. -/
def IssuesList.new (ignored_rules : List String) : IssuesList :=
  ⟨[], ignored_rules⟩

/-- Embedding of `IssuesList::add`: the pair is appended unless the rule
name is in the ignore list. -/
def IssuesList.add (l : IssuesList) (package_type : PackageType) (issue : Issue) :
    IssuesList :=
  if l.ignored_rules.contains issue.name then l
  else ⟨l.issues ++ [(package_type, issue)], l.ignored_rules⟩

/-- Embedding of `IssuesList::errors_count`. -/
def IssuesList.errors_count (l : IssuesList) : Nat :=
  (l.issues.filter fun pr => pr.2.level == IssueLevel.error).length

/-- Embedding of `IssuesList::warnings_count`. -/
def IssuesList.warnings_count (l : IssuesList) : Nat :=
  (l.issues.filter fun pr => pr.2.level == IssueLevel.warning).length

/-- Embedding of `IssuesList::is_empty`. -/
def IssuesList.is_empty (l : IssuesList) : Bool :=
  l.issues.isEmpty

/-- Display name of a package as computed in `collect_issues`:
`"(root)"` for the root manifest, else the workspace name. -/
def pkgName : PackageType → String
  | PackageType.Root => "(root)"
  | PackageType.Workspace name => name

/-- Body of the per-dependency branch of `collect_issues`
(collect.rs lines 93 to 171): given the current `used_entries` list it
returns the updated list together with the issue emitted for this
dependency, if any, before ignore-rule filtering.  The `retain` calls of
the source keep the surviving elements in place, which on the list model
is `List.filter`. -/
def processDep (c : WorkspaceCatalogs) (pt : PackageType) (dep : Dependency)
    (used : List CatalogEntry) : List CatalogEntry × Option (PackageType × Issue) :=
  if is_catalog_ref dep.version then
    match parse_catalog_ref dep.version with
    | some none =>
        if has_default_entry c dep.name then
          (used.filter fun e => !(e.catalog_name.isNone && e.dependency_name == dep.name),
           none)
        else
          (used, some (pt, Issue.CatalogEntryExists dep.name dep.version dep.kind
            MissingCatalog.DefaultEntry))
    | some (some name) =>
        if !has_catalog c name then
          (used, some (pt, Issue.CatalogEntryExists dep.name dep.version dep.kind
            (MissingCatalog.NamedCatalog name)))
        else if has_named_entry c name dep.name then
          (used.filter fun e => !(e.catalog_name == some name && e.dependency_name == dep.name),
           none)
        else
          (used, some (pt, Issue.CatalogEntryExists dep.name dep.version dep.kind
            (MissingCatalog.NamedEntry name)))
    | none => (used, none)
  else if !is_special_protocol dep.version then
    let found_in := find_dependency c dep.name
    if !found_in.isEmpty then
      (found_in.foldl
         (fun u cn => u.filter fun e =>
            !(e.catalog_name == cn && e.dependency_name == dep.name))
         used,
       some (pt, Issue.NoDirectVersion dep.name dep.version dep.kind found_in))
    else (used, none)
  else (used, none)

/-- One dependency iteration of the inner loop of `collect_issues`:
the ignored-dependency test, then `processDep`, then `IssuesList::add`. -/
def stepDep (c : WorkspaceCatalogs) (ignored_dependencies : List String)
    (pt : PackageType) (dep : Dependency)
    (st : List CatalogEntry × IssuesList) : List CatalogEntry × IssuesList :=
  if ignored_dependencies.any (fun d => d == dep.name) then st
  else
    match processDep c pt dep st.1 with
    | (used, none) => (used, st.2)
    | (used, some (q, i)) => (used, st.2.add q i)

/-- The inner loop of `collect_issues` over one package's dependencies. -/
def runDeps (c : WorkspaceCatalogs) (ignored_dependencies : List String)
    (pt : PackageType) : List Dependency →
    List CatalogEntry × IssuesList → List CatalogEntry × IssuesList
  | [], st => st
  | dep :: rest, st =>
      runDeps c ignored_dependencies pt rest (stepDep c ignored_dependencies pt dep st)

/-- The outer loop of `collect_issues` over the packages, with the
ignored-package test. -/
def runPkgs (c : WorkspaceCatalogs) (ignored_packages ignored_dependencies : List String) :
    List Package → List CatalogEntry × IssuesList → List CatalogEntry × IssuesList
  | [], st => st
  | pkg :: rest, st =>
      if ignored_packages.any (fun p => p == pkgName pkg.package_type) then
        runPkgs c ignored_packages ignored_dependencies rest st
      else
        runPkgs c ignored_packages ignored_dependencies rest
          (runDeps c ignored_dependencies pkg.package_type pkg.all_dependencies st)

/-- The final loop of `collect_issues` (collect.rs lines 176 to 187):
one `UnusedCatalogEntry` warning per surviving entry whose version can be
looked up, attributed to the root package. -/
def emitUnused (c : WorkspaceCatalogs) : List CatalogEntry → IssuesList → IssuesList
  | [], il => il
  | e :: rest, il =>
      emitUnused c rest
        (match get_version c e with
         | some version =>
             il.add PackageType.Root
               (Issue.UnusedCatalogEntry e.dependency_name e.catalog_name version)
         | none => il)

/-- Embedding of `collect.rs::collect_issues`, parametrised by the
iteration order `initEntries` of the `used_entries` hash set (the Rust
`HashSet` fixes no order; this parameter stands for the order the set
happens to iterate in). -/
def collect_issuesFrom (packages : List Package) (catalogs : WorkspaceCatalogs)
    (ignored_rules ignored_packages ignored_dependencies : List String)
    (initEntries : List CatalogEntry) : IssuesList :=
  let st := runPkgs catalogs ignored_packages ignored_dependencies packages
    (initEntries, IssuesList.new ignored_rules)
  emitUnused catalogs st.1 st.2

/-- `collect_issues` with the `used_entries` iteration order instantiated
to the construction order of `all_entries`. -/
def collect_issues (packages : List Package) (catalogs : WorkspaceCatalogs)
    (ignored_rules ignored_packages ignored_dependencies : List String) : IssuesList :=
  collect_issuesFrom packages catalogs ignored_rules ignored_packages
    ignored_dependencies (all_entries catalogs)

/-- Survivor predicate of `processDep` on the used-entries set: an entry
stays unless the dependency marks it used. -/
def depKeep (c : WorkspaceCatalogs) (dep : Dependency) (e : CatalogEntry) : Bool :=
  if is_catalog_ref dep.version then
    match parse_catalog_ref dep.version with
    | some none =>
        if has_default_entry c dep.name then
          !(e.catalog_name.isNone && e.dependency_name == dep.name)
        else true
    | some (some name) =>
        if !has_catalog c name then true
        else if has_named_entry c name dep.name then
          !(e.catalog_name == some name && e.dependency_name == dep.name)
        else true
    | none => true
  else if !is_special_protocol dep.version then
    if !(find_dependency c dep.name).isEmpty then
      !((find_dependency c dep.name).contains e.catalog_name
          && e.dependency_name == dep.name)
    else true
  else true

/-- Issue emitted by `processDep` for one dependency, before the
ignore-rule filter; independent of the used-entries set. -/
def depEmit (c : WorkspaceCatalogs) (pt : PackageType) (dep : Dependency) :
    Option (PackageType × Issue) :=
  if is_catalog_ref dep.version then
    match parse_catalog_ref dep.version with
    | some none =>
        if has_default_entry c dep.name then none
        else some (pt, Issue.CatalogEntryExists dep.name dep.version dep.kind
          MissingCatalog.DefaultEntry)
    | some (some name) =>
        if !has_catalog c name then
          some (pt, Issue.CatalogEntryExists dep.name dep.version dep.kind
            (MissingCatalog.NamedCatalog name))
        else if has_named_entry c name dep.name then none
        else some (pt, Issue.CatalogEntryExists dep.name dep.version dep.kind
          (MissingCatalog.NamedEntry name))
    | none => none
  else if !is_special_protocol dep.version then
    if !(find_dependency c dep.name).isEmpty then
      some (pt, Issue.NoDirectVersion dep.name dep.version dep.kind
        (find_dependency c dep.name))
    else none
  else none

/-- Append a batch of already-filtered pairs to an issues list. -/
def appendIssues (il : IssuesList) (es : List (PackageType × Issue)) : IssuesList :=
  ⟨il.issues ++ es, il.ignored_rules⟩

/-- Survivor predicate of one `stepDep` iteration (ignored dependencies
touch nothing). -/
def stepKeep (c : WorkspaceCatalogs) (ignd : List String) (dep : Dependency)
    (e : CatalogEntry) : Bool :=
  if ignd.any (fun d => d == dep.name) then true else depKeep c dep e

/-- Pairs appended to the issues list by one `stepDep` iteration, after
the ignored-dependency test and the ignore-rule filter. -/
def stepEmit (c : WorkspaceCatalogs) (rules ignd : List String) (pt : PackageType)
    (dep : Dependency) : List (PackageType × Issue) :=
  if ignd.any (fun d => d == dep.name) then []
  else
    match depEmit c pt dep with
    | none => []
    | some (q, i) => if rules.contains i.name then [] else [(q, i)]

/-- Conjunction of the survivor predicates over a dependency list. -/
def depsKeep (c : WorkspaceCatalogs) (ignd : List String) :
    List Dependency → CatalogEntry → Bool
  | [], _ => true
  | d :: ds, e => stepKeep c ignd d e && depsKeep c ignd ds e

/-- Pairs appended over a dependency list. -/
def depsEmits (c : WorkspaceCatalogs) (rules ignd : List String) (pt : PackageType) :
    List Dependency → List (PackageType × Issue)
  | [] => []
  | d :: ds => stepEmit c rules ignd pt d ++ depsEmits c rules ignd pt ds

/-- Conjunction of the survivor predicates over the package list. -/
def pkgsKeep (c : WorkspaceCatalogs) (pI dI : List String) :
    List Package → CatalogEntry → Bool
  | [], _ => true
  | pkg :: rest, e =>
      (if pI.any (fun p => p == pkgName pkg.package_type) then true
       else depsKeep c dI pkg.all_dependencies e) && pkgsKeep c pI dI rest e

/-- Pairs appended to the issues list over the package list. -/
def pkgsEmits (c : WorkspaceCatalogs) (rules pI dI : List String) :
    List Package → List (PackageType × Issue)
  | [] => []
  | pkg :: rest =>
      (if pI.any (fun p => p == pkgName pkg.package_type) then []
       else depsEmits c rules dI pkg.package_type pkg.all_dependencies)
        ++ pkgsEmits c rules pI dI rest

/-- The warning produced for one surviving entry by the final loop, after
the version lookup guard and the ignore-rule filter. -/
def unusedEmit (c : WorkspaceCatalogs) (rules : List String) (e : CatalogEntry) :
    Option (PackageType × Issue) :=
  match get_version c e with
  | some version =>
      if rules.contains "unused-catalog-entry" then none
      else some (PackageType.Root,
        Issue.UnusedCatalogEntry e.dependency_name e.catalog_name version)
  | none => none

/-- Model of the outcome of the loading phase of `main.rs`: one variant
per fatal load failure (invalid root path, unreadable or unparseable
workspace config, manifest load failure), or success carrying the
collected issues. -/
inductive LoadResult
  | invalidPath
  | workspaceError
  | manifestError
  | success (issues : IssuesList)

/-- Embedding of the exit-code decision of `main.rs`: any load failure
exits 1; an empty issue list exits 0; otherwise exit 1 exactly when there
are errors, or warnings with the fail-on-warnings flag set. -/
def exitCode (fail_on_warnings : Bool) : LoadResult → Nat
  | LoadResult.invalidPath => 1
  | LoadResult.workspaceError => 1
  | LoadResult.manifestError => 1
  | LoadResult.success issues =>
      if issues.is_empty then 0
      else
        if issues.errors_count > 0
            ∨ (fail_on_warnings = true ∧ issues.warnings_count > 0)
        then 1 else 0

theorem listLeads_both : ∀ (p q l : List Char),
    listLeads p l = true → listLeads q l = true →
    listLeads p q = true ∨ listLeads q p = true
  | [], _, _, _, _ => Or.inl rfl
  | _ :: _, [], _, _, _ => Or.inr rfl
  | a :: p, b :: q, [], hp, _ => by simp [listLeads] at hp
  | a :: p, b :: q, c :: l, hp, hq => by
      simp only [listLeads, Bool.and_eq_true, beq_iff_eq] at hp hq
      rcases hp with ⟨ha, hp⟩
      rcases hq with ⟨hb, hq⟩
      subst ha
      subst hb
      rcases listLeads_both p q l hp hq with h | h
      · exact Or.inl (by simp [listLeads, h])
      · exact Or.inr (by simp [listLeads, h])

theorem leads_false_of_incomp (p q l : List Char)
    (hp : listLeads p l = true)
    (h1 : listLeads p q = false) (h2 : listLeads q p = false) :
    listLeads q l = false := by
  cases hq : listLeads q l with
  | false => rfl
  | true =>
      rcases listLeads_both p q l hp hq with h | h
      · rw [h1] at h
        exact absurd h (by simp)
      · rw [h2] at h
        exact absurd h (by simp)

theorem is_catalog_ref_leads (v : String) (h : is_catalog_ref v = true) :
    listLeads ("catalog:").data v.data = true := by
  simp only [is_catalog_ref, beginsWith, Bool.or_eq_true, beq_iff_eq] at h
  rcases h with h | h
  · subst h
    decide
  · exact h

theorem catalog_ref_not_special (v : String) (h : is_catalog_ref v = true) :
    is_special_protocol v = false := by
  have hc := is_catalog_ref_leads v h
  have h1 : listLeads ("workspace:").data v.data = false :=
    leads_false_of_incomp _ _ _ hc (by decide) (by decide)
  have h2 : listLeads ("link:").data v.data = false :=
    leads_false_of_incomp _ _ _ hc (by decide) (by decide)
  have h3 : listLeads ("file:").data v.data = false :=
    leads_false_of_incomp _ _ _ hc (by decide) (by decide)
  have h4 : listLeads ("git:").data v.data = false :=
    leads_false_of_incomp _ _ _ hc (by decide) (by decide)
  have h5 : listLeads ("git+").data v.data = false :=
    leads_false_of_incomp _ _ _ hc (by decide) (by decide)
  have h6 : listLeads ("http:").data v.data = false :=
    leads_false_of_incomp _ _ _ hc (by decide) (by decide)
  have h7 : listLeads ("https:").data v.data = false :=
    leads_false_of_incomp _ _ _ hc (by decide) (by decide)
  unfold is_special_protocol beginsWith
  rw [h1, h2, h3, h4, h5, h6, h7]
  rfl

theorem is_catalog_ref_eq_isSome (v : String) :
    is_catalog_ref v = (parse_catalog_ref v).isSome := by
  by_cases hv : v = "catalog:"
  · subst hv
    decide
  · unfold parse_catalog_ref
    rw [if_neg hv]
    unfold stripLead is_catalog_ref
    cases hb : beginsWith v "catalog:" with
    | true =>
        simp only [hb, if_true, Bool.or_true]
        split <;> rfl
    | false =>
        simp only [hb, if_false, Bool.or_false, Option.isSome_none]
        exact beq_eq_false_iff_ne.mpr hv

/-- C5: `parse_catalog_ref` satisfies the exact literal contract:
`"catalog:"` and `"catalog:default"` map to the default catalog,
`"catalog:react16"` to the named catalog `"react16"`, and any string not
starting with `"catalog:"` is not a catalog reference. -/
theorem c5_parse_catalog_ref_contract :
    parse_catalog_ref "catalog:" = some none
      ∧ parse_catalog_ref "catalog:default" = some none
      ∧ parse_catalog_ref "catalog:react16" = some (some "react16")
      ∧ ∀ s : String, beginsWith s "catalog:" = false → parse_catalog_ref s = none := by
  refine ⟨by decide, by decide, by decide, ?_⟩
  intro s hs
  have hne : s ≠ "catalog:" := by
    intro h
    subst h
    exact absurd hs (by decide)
  simp [parse_catalog_ref, stripLead, hs, hne]

/-- Witness for C5 at the concrete non-reference string of the claim. -/
theorem c5_witness :
    beginsWith "^1.0.0" "catalog:" = false ∧ parse_catalog_ref "^1.0.0" = none :=
  ⟨by decide, c5_parse_catalog_ref_contract.2.2.2 "^1.0.0" (by decide)⟩

/-- C6: every version string falls in exactly one of the three classes
catalog reference, special protocol, direct version, and `is_catalog_ref`
agrees with `parse_catalog_ref` being successful. -/
theorem c6_classification (v : String) :
    ((is_catalog_ref v = true ∧ is_special_protocol v = false ∧ isDirectVersion v = false)
      ∨ (is_catalog_ref v = false ∧ is_special_protocol v = true ∧ isDirectVersion v = false)
      ∨ (is_catalog_ref v = false ∧ is_special_protocol v = false ∧ isDirectVersion v = true))
    ∧ is_catalog_ref v = (parse_catalog_ref v).isSome := by
  refine ⟨?_, is_catalog_ref_eq_isSome v⟩
  cases hc : is_catalog_ref v with
  | true =>
      exact Or.inl ⟨rfl, catalog_ref_not_special v hc,
        by simp [isDirectVersion, hc]⟩
  | false =>
      cases hs : is_special_protocol v with
      | true => exact Or.inr (Or.inl ⟨rfl, rfl, by simp [isDirectVersion, hc, hs]⟩)
      | false => exact Or.inr (Or.inr ⟨rfl, rfl, by simp [isDirectVersion, hc, hs]⟩)

theorem filter_ext (u : List CatalogEntry) (p q : CatalogEntry → Bool)
    (h : ∀ e, p e = q e) : u.filter p = u.filter q :=
  List.filter_congr fun e _ => h e

theorem filter_id (u : List CatalogEntry) (p : CatalogEntry → Bool)
    (h : ∀ e, p e = true) : u.filter p = u :=
  List.filter_eq_self.mpr fun e _ => by rw [h e]

theorem foldl_retain (n : String) :
    ∀ (l : List (Option String)) (u : List CatalogEntry),
    l.foldl (fun u cn => u.filter fun e =>
        !(e.catalog_name == cn && e.dependency_name == n)) u
      = u.filter fun e => !(l.contains e.catalog_name && e.dependency_name == n)
  | [], u => by simp
  | cn :: rest, u => by
      rw [List.foldl_cons, foldl_retain n rest _, List.filter_filter]
      apply List.filter_congr
      intro e _
      cases h1 : (e.catalog_name == cn) <;>
        cases h2 : (rest.contains e.catalog_name) <;>
          cases h3 : (e.dependency_name == n) <;>
            simp_all

theorem processDep_eq (c : WorkspaceCatalogs) (pt : PackageType) (dep : Dependency)
    (u : List CatalogEntry) :
    processDep c pt dep u = (u.filter (depKeep c dep), depEmit c pt dep) := by
  cases h : is_catalog_ref dep.version with
  | true =>
      cases hp : parse_catalog_ref dep.version with
      | none =>
          rw [filter_id u _ fun e => by simp [depKeep, h, hp]]
          simp [processDep, depEmit, h, hp]
      | some o =>
          cases o with
          | none =>
              cases hd : has_default_entry c dep.name with
              | true =>
                  rw [List.filter_congr fun e _ =>
                    show depKeep c dep e
                        = !(e.catalog_name.isNone && e.dependency_name == dep.name)
                      from by simp [depKeep, h, hp, hd]]
                  simp [processDep, depEmit, h, hp, hd]
              | false =>
                  rw [filter_id u _ fun e => by simp [depKeep, h, hp, hd]]
                  simp [processDep, depEmit, h, hp, hd]
          | some name =>
              cases hcat : has_catalog c name with
              | false =>
                  rw [filter_id u _ fun e => by simp [depKeep, h, hp, hcat]]
                  simp [processDep, depEmit, h, hp, hcat]
              | true =>
                  cases hne : has_named_entry c name dep.name with
                  | true =>
                      rw [List.filter_congr fun e _ =>
                        show depKeep c dep e
                            = !(e.catalog_name == some name
                                && e.dependency_name == dep.name)
                          from by simp [depKeep, h, hp, hcat, hne]]
                      simp [processDep, depEmit, h, hp, hcat, hne]
                  | false =>
                      rw [filter_id u _ fun e => by simp [depKeep, h, hp, hcat, hne]]
                      simp [processDep, depEmit, h, hp, hcat, hne]
  | false =>
      cases hs : is_special_protocol dep.version with
      | true =>
          rw [filter_id u _ fun e => by simp [depKeep, h, hs]]
          simp [processDep, depEmit, h, hs]
      | false =>
          cases hf : (find_dependency c dep.name).isEmpty with
          | true =>
              rw [filter_id u _ fun e => by simp [depKeep, h, hs, hf]]
              simp [processDep, depEmit, h, hs, hf]
          | false =>
              rw [List.filter_congr fun e _ =>
                show depKeep c dep e
                    = !((find_dependency c dep.name).contains e.catalog_name
                        && e.dependency_name == dep.name)
                  from by simp [depKeep, h, hs, hf]]
              rw [show processDep c pt dep u
                  = ((find_dependency c dep.name).foldl
                      (fun u cn => u.filter fun e =>
                        !(e.catalog_name == cn && e.dependency_name == dep.name)) u,
                     some (pt, Issue.NoDirectVersion dep.name dep.version dep.kind
                       (find_dependency c dep.name)))
                from by simp [processDep, h, hs, hf]]
              rw [foldl_retain]
              simp [depEmit, h, hs, hf]

theorem add_eq (il : IssuesList) (pt : PackageType) (i : Issue) :
    il.add pt i
      = appendIssues il (if il.ignored_rules.contains i.name then [] else [(pt, i)]) := by
  cases h : il.ignored_rules.contains i.name <;> simp at h <;>
    simp [IssuesList.add, appendIssues, h]

theorem appendIssues_append (il : IssuesList) (a b : List (PackageType × Issue)) :
    appendIssues (appendIssues il a) b = appendIssues il (a ++ b) := by
  simp [appendIssues]

theorem stepDep_eq (c : WorkspaceCatalogs) (ignd : List String) (pt : PackageType)
    (dep : Dependency) (u : List CatalogEntry) (il : IssuesList) :
    stepDep c ignd pt dep (u, il)
      = (u.filter (stepKeep c ignd dep),
         appendIssues il (stepEmit c il.ignored_rules ignd pt dep)) := by
  cases hig : ignd.any (fun d => d == dep.name) with
  | true =>
      rw [show u.filter (stepKeep c ignd dep) = u
        from filter_id u _ fun e => by simp [stepKeep, hig]]
      simp [stepDep, stepEmit, hig, appendIssues]
  | false =>
      rw [show u.filter (stepKeep c ignd dep) = u.filter (depKeep c dep)
        from filter_ext u _ _ fun e => by simp [stepKeep, hig]]
      have h0 : stepDep c ignd pt dep (u, il)
          = (match processDep c pt dep u with
             | (used, none) => (used, il)
             | (used, some (q, i)) => (used, il.add q i)) := by
        simp [stepDep, hig]
      rw [h0, processDep_eq]
      cases hde : depEmit c pt dep with
      | none => simp [stepEmit, hig, hde, appendIssues]
      | some pr =>
          obtain ⟨q, i⟩ := pr
          rw [show stepEmit c il.ignored_rules ignd pt dep
              = (if il.ignored_rules.contains i.name then [] else [(q, i)])
            from by simp [stepEmit, hig, hde]]
          rw [show (match (List.filter (depKeep c dep) u, some (q, i)) with
              | (used, none) => (used, il)
              | (used, some (q, i)) => (used, il.add q i))
              = (List.filter (depKeep c dep) u, il.add q i) from rfl]
          rw [add_eq]

theorem runDeps_eq (c : WorkspaceCatalogs) (ignd : List String) (pt : PackageType) :
    ∀ (ds : List Dependency) (u : List CatalogEntry) (il : IssuesList),
    runDeps c ignd pt ds (u, il)
      = (u.filter (depsKeep c ignd ds),
         appendIssues il (depsEmits c il.ignored_rules ignd pt ds))
  | [], u, il => by simp [runDeps, depsKeep, depsEmits, appendIssues]
  | d :: ds, u, il => by
      simp only [runDeps]
      rw [stepDep_eq, runDeps_eq c ignd pt ds _ _, List.filter_filter,
        appendIssues_append]
      simp only [appendIssues, Prod.mk.injEq]
      constructor
      · exact List.filter_congr fun e _ => by
          simp [depsKeep, Bool.and_comm]
      · simp [depsEmits]

theorem runPkgs_eq (c : WorkspaceCatalogs) (pI dI : List String) :
    ∀ (pks : List Package) (u : List CatalogEntry) (il : IssuesList),
    runPkgs c pI dI pks (u, il)
      = (u.filter (pkgsKeep c pI dI pks),
         appendIssues il (pkgsEmits c il.ignored_rules pI dI pks))
  | [], u, il => by simp [runPkgs, pkgsKeep, pkgsEmits, appendIssues]
  | pkg :: rest, u, il => by
      cases hig : pI.any (fun p => p == pkgName pkg.package_type) with
      | true =>
          simp only [runPkgs, hig, if_true]
          rw [runPkgs_eq c pI dI rest u il]
          simp only [appendIssues, Prod.mk.injEq]
          constructor
          · exact List.filter_congr fun e _ => by simp [pkgsKeep, hig]
          · simp [pkgsEmits, hig]
      | false =>
          simp only [runPkgs, hig, Bool.false_eq_true, if_false]
          rw [runDeps_eq, runPkgs_eq c pI dI rest _ _, List.filter_filter,
            appendIssues_append]
          simp only [appendIssues, Prod.mk.injEq]
          constructor
          · exact List.filter_congr fun e _ => by
              simp [pkgsKeep, hig, Bool.and_comm]
          · simp [pkgsEmits, hig]

theorem emitUnused_eq (c : WorkspaceCatalogs) :
    ∀ (r : List CatalogEntry) (il : IssuesList),
    emitUnused c r il = appendIssues il (r.filterMap (unusedEmit c il.ignored_rules))
  | [], il => by simp [emitUnused, appendIssues]
  | e :: rest, il => by
      cases hv : get_version c e with
      | none =>
          have h0 : emitUnused c (e :: rest) il = emitUnused c rest il := by
            simp [emitUnused, hv]
          rw [h0, emitUnused_eq c rest il]
          simp [List.filterMap_cons, unusedEmit, hv]
      | some version =>
          cases hr : il.ignored_rules.contains "unused-catalog-entry" with
          | true =>
              have hadd : il.add PackageType.Root
                  (Issue.UnusedCatalogEntry e.dependency_name e.catalog_name version)
                    = il := by
                simp at hr
                simp [IssuesList.add, Issue.name, hr]
              have h0 : emitUnused c (e :: rest) il = emitUnused c rest il := by
                simp [emitUnused, hv, hadd]
              rw [h0, emitUnused_eq c rest il]
              simp at hr
              simp [List.filterMap_cons, unusedEmit, hv, hr]
          | false =>
              have hadd : il.add PackageType.Root
                  (Issue.UnusedCatalogEntry e.dependency_name e.catalog_name version)
                    = appendIssues il [(PackageType.Root,
                        Issue.UnusedCatalogEntry e.dependency_name e.catalog_name version)] := by
                simp at hr
                simp [IssuesList.add, Issue.name, appendIssues, hr]
              have h0 : emitUnused c (e :: rest) il
                  = emitUnused c rest (appendIssues il [(PackageType.Root,
                      Issue.UnusedCatalogEntry e.dependency_name e.catalog_name version)]) := by
                simp [emitUnused, hv, hadd]
              rw [h0, emitUnused_eq c rest _, appendIssues_append]
              simp at hr
              simp [List.filterMap_cons, unusedEmit, hv, hr, appendIssues]

theorem collect_issuesFrom_eq (pk : List Package) (c : WorkspaceCatalogs)
    (rI pI dI : List String) (e : List CatalogEntry) :
    collect_issuesFrom pk c rI pI dI e
      = ⟨pkgsEmits c rI pI dI pk
           ++ (e.filter (pkgsKeep c pI dI pk)).filterMap (unusedEmit c rI), rI⟩ := by
  simp only [collect_issuesFrom]
  rw [runPkgs_eq, emitUnused_eq]
  simp [appendIssues, IssuesList.new]

theorem filterMap_guard (n : String) :
    ∀ (l : List (String × List (String × String))),
    (l.filterMap fun p => if mapContains p.2 n then some (some p.1) else none)
      = (l.filter fun p => mapContains p.2 n).map fun p => some p.1
  | [] => rfl
  | p :: rest => by
      cases h : mapContains p.2 n <;>
        simp [List.filterMap_cons, List.filter_cons, h, filterMap_guard n rest]

/-- C1 as stated fails on the code: with two default-catalog entries and
no packages, two iteration orders of the `used_entries` set — both
enumerating `all_entries` — produce issue lists that differ in the order
of the unused-catalog-entry warnings, so the output does depend on the
hash-iteration order. -/
theorem c1_counterexample :
    List.Perm [(⟨none, "a"⟩ : CatalogEntry), ⟨none, "b"⟩]
        (all_entries ⟨[("a", "1"), ("b", "2")], []⟩)
      ∧ List.Perm [(⟨none, "b"⟩ : CatalogEntry), ⟨none, "a"⟩]
        (all_entries ⟨[("a", "1"), ("b", "2")], []⟩)
      ∧ collect_issuesFrom [] ⟨[("a", "1"), ("b", "2")], []⟩ [] [] []
            [⟨none, "a"⟩, ⟨none, "b"⟩]
          ≠ collect_issuesFrom [] ⟨[("a", "1"), ("b", "2")], []⟩ [] [] []
            [⟨none, "b"⟩, ⟨none, "a"⟩] := by
  decide

/-- C1 amended: the engine is a pure function of its inputs together with
the iteration order of the used-entries set, and for any two iteration
orders that enumerate the same entries the resulting issue lists are
permutations of each other (the pass-emitted prefix is identical; only
the order of the trailing unused-catalog-entry warnings follows the
set-iteration order). -/
theorem c1_hash_order_perm (pk : List Package) (c : WorkspaceCatalogs)
    (rI pI dI : List String) (e1 e2 : List CatalogEntry)
    (h : List.Perm e1 e2) :
    List.Perm (collect_issuesFrom pk c rI pI dI e1).issues
      (collect_issuesFrom pk c rI pI dI e2).issues := by
  rw [collect_issuesFrom_eq, collect_issuesFrom_eq]
  exact List.Perm.append_left _ ((h.filter _).filterMap _)

/-- Witness for C1's amended statement at the concrete counterexample
inputs. -/
theorem c1_witness :
    List.Perm
      (collect_issuesFrom [] ⟨[("a", "1"), ("b", "2")], []⟩ [] [] []
        [⟨none, "a"⟩, ⟨none, "b"⟩]).issues
      (collect_issuesFrom [] ⟨[("a", "1"), ("b", "2")], []⟩ [] [] []
        [⟨none, "b"⟩, ⟨none, "a"⟩]).issues :=
  c1_hash_order_perm [] ⟨[("a", "1"), ("b", "2")], []⟩ [] [] [] _ _ (by decide)

/-- C2: with a default catalog pinning exactly `react` and one package
whose only dependency is `react` at a literal direct version, running the
engine with `no-direct-version` ignored yields no issues at all — the
usage side effect fires even though the issue is filtered, so no spurious
unused-catalog-entry warning appears. -/
theorem c2_ignored_rule_no_spurious_unused (pt : PackageType) (v pv : String)
    (h1 : is_catalog_ref v = false) (h2 : is_special_protocol v = false) :
    (collect_issues [⟨"app", pt, ⟨some "app", [("react", v)], [], [], []⟩⟩]
        ⟨[("react", pv)], []⟩ ["no-direct-version"] [] []).issues = [] := by
  rw [collect_issues, collect_issuesFrom_eq]
  simp [pkgsEmits, depsEmits, stepEmit, depEmit, h1, h2, pkgsKeep, depsKeep,
    stepKeep, depKeep, Package.all_dependencies, find_dependency, mapContains,
    all_entries, Issue.name, pkgName, List.filter_cons, unusedEmit]

/-- Witness for C2 at the concrete versions of the spec scenario. -/
theorem c2_witness :
    (collect_issues
        [⟨"app", PackageType.Workspace "app",
           ⟨some "app", [("react", "^18.2.0")], [], [], []⟩⟩]
        ⟨[("react", "^18.2.0")], []⟩ ["no-direct-version"] [] []).issues = [] :=
  c2_ignored_rule_no_spurious_unused (PackageType.Workspace "app") "^18.2.0" "^18.2.0"
    (by decide) (by decide)

/-- C3: for a non-ignored direct-version dependency, when some catalog
pins the name the engine removes every matching entry from the working
set and emits exactly one no-direct-version error carrying
`find_dependency` as `available_in`; when no catalog pins the name it
emits nothing; and `find_dependency` lists the default catalog first
(when it pins the name) followed by the named catalogs that pin it, in
declared order. -/
theorem c3_direct_version_rule (c : WorkspaceCatalogs) (pt : PackageType)
    (dep : Dependency) (u : List CatalogEntry)
    (h1 : is_catalog_ref dep.version = false)
    (h2 : is_special_protocol dep.version = false) :
    (find_dependency c dep.name ≠ [] →
       processDep c pt dep u
         = (u.filter fun e =>
              !((find_dependency c dep.name).contains e.catalog_name
                  && e.dependency_name == dep.name),
            some (pt, Issue.NoDirectVersion dep.name dep.version dep.kind
              (find_dependency c dep.name))))
    ∧ (find_dependency c dep.name = [] → processDep c pt dep u = (u, none))
    ∧ find_dependency c dep.name
        = (if has_default_entry c dep.name then [Option.none] else [])
            ++ ((c.named.filter fun p => mapContains p.2 dep.name).map
                  fun p => some p.1) := by
  refine ⟨?_, ?_, ?_⟩
  · intro hne
    have hf : (find_dependency c dep.name).isEmpty = false :=
      List.isEmpty_eq_false.mpr hne
    rw [processDep_eq]
    simp only [Prod.mk.injEq]
    refine ⟨filter_ext u _ _ fun e => by simp [depKeep, h1, h2, hf], ?_⟩
    simp [depEmit, h1, h2, hf]
  · intro hemp
    have hf : (find_dependency c dep.name).isEmpty = true := by
      rw [hemp]
      rfl
    rw [processDep_eq]
    simp only [Prod.mk.injEq]
    exact ⟨filter_id u _ fun e => by simp [depKeep, h1, h2, hf],
      by simp [depEmit, h1, h2, hf]⟩
  · rw [find_dependency, filterMap_guard, has_default_entry]

/-- Witness for C3 on a one-entry default catalog and a literal version. -/
theorem c3_witness :
    processDep ⟨[("react", "^18.2.0")], []⟩ PackageType.Root
        ⟨"react", "^18.2.0", DependencyKind.dependencies⟩ [⟨none, "react"⟩]
      = ([(⟨none, "react"⟩ : CatalogEntry)].filter fun e =>
           !((find_dependency ⟨[("react", "^18.2.0")], []⟩ "react").contains
                 e.catalog_name
               && e.dependency_name == "react"),
         some (PackageType.Root, Issue.NoDirectVersion "react" "^18.2.0"
           DependencyKind.dependencies
           (find_dependency ⟨[("react", "^18.2.0")], []⟩ "react"))) :=
  (c3_direct_version_rule ⟨[("react", "^18.2.0")], []⟩ PackageType.Root
      ⟨"react", "^18.2.0", DependencyKind.dependencies⟩ [⟨none, "react"⟩]
      (by decide) (by decide)).1 (by decide)

/-- C4: for a non-ignored dependency whose version parses as a named
catalog reference: a missing catalog yields a catalog-entry-exists error
with `NamedCatalog`, an existing catalog lacking the entry yields one
with `NamedEntry`, and an existing entry is removed from the working set
with no issue emitted. -/
theorem c4_named_catalog_rule (c : WorkspaceCatalogs) (pt : PackageType)
    (dep : Dependency) (u : List CatalogEntry) (name : String)
    (hp : parse_catalog_ref dep.version = some (some name)) :
    (has_catalog c name = false →
       processDep c pt dep u
         = (u, some (pt, Issue.CatalogEntryExists dep.name dep.version dep.kind
             (MissingCatalog.NamedCatalog name))))
    ∧ (has_catalog c name = true → has_named_entry c name dep.name = false →
       processDep c pt dep u
         = (u, some (pt, Issue.CatalogEntryExists dep.name dep.version dep.kind
             (MissingCatalog.NamedEntry name))))
    ∧ (has_catalog c name = true → has_named_entry c name dep.name = true →
       processDep c pt dep u
         = (u.filter fun e =>
              !(e.catalog_name == some name && e.dependency_name == dep.name),
            none)) := by
  have h : is_catalog_ref dep.version = true := by
    rw [is_catalog_ref_eq_isSome, hp]
    rfl
  refine ⟨?_, ?_, ?_⟩
  · intro hcat
    rw [processDep_eq]
    simp only [Prod.mk.injEq]
    exact ⟨filter_id u _ fun e => by simp [depKeep, h, hp, hcat],
      by simp [depEmit, h, hp, hcat]⟩
  · intro hcat hne
    rw [processDep_eq]
    simp only [Prod.mk.injEq]
    exact ⟨filter_id u _ fun e => by simp [depKeep, h, hp, hcat, hne],
      by simp [depEmit, h, hp, hcat, hne]⟩
  · intro hcat hne
    rw [processDep_eq]
    simp only [Prod.mk.injEq]
    refine ⟨filter_ext u _ _ fun e => by simp [depKeep, h, hp, hcat, hne], ?_⟩
    simp [depEmit, h, hp, hcat, hne]

/-- Witness for C4 on a one-catalog workspace where the named entry
exists, exercising the mark-used branch. -/
theorem c4_witness :
    processDep ⟨[], [("react16", [("react", "^16.7.0")])]⟩ PackageType.Root
        ⟨"react", "catalog:react16", DependencyKind.dependencies⟩
        [⟨some "react16", "react"⟩]
      = ([(⟨some "react16", "react"⟩ : CatalogEntry)].filter fun e =>
           !(e.catalog_name == some "react16" && e.dependency_name == "react"),
         none) :=
  (c4_named_catalog_rule ⟨[], [("react16", [("react", "^16.7.0")])]⟩
      PackageType.Root ⟨"react", "catalog:react16", DependencyKind.dependencies⟩
      [⟨some "react16", "react"⟩] "react16" (by decide)).2.2 (by decide) (by decide)

theorem filterMap_unused_map (c : WorkspaceCatalogs) (rules : List String)
    (hig : rules.contains "unused-catalog-entry" = false) :
    ∀ (r : List CatalogEntry), (∀ e ∈ r, (get_version c e).isSome = true) →
    r.filterMap (unusedEmit c rules)
      = r.map fun e => (PackageType.Root,
          Issue.UnusedCatalogEntry e.dependency_name e.catalog_name
            ((get_version c e).getD ""))
  | [], _ => rfl
  | e :: rest, hv => by
      obtain ⟨ver, hver⟩ := Option.isSome_iff_exists.mp (hv e (by simp))
      have hig' : ¬("unused-catalog-entry" ∈ rules) := by
        simpa using hig
      rw [List.filterMap_cons, List.map_cons,
        show unusedEmit c rules e
            = some (PackageType.Root, Issue.UnusedCatalogEntry e.dependency_name
                e.catalog_name ver)
          from by simp [unusedEmit, hver, hig'],
        filterMap_unused_map c rules hig rest fun x hx => hv x (by simp [hx])]
      simp [hver]

/-- C7: after the pass, the final loop appends exactly one
unused-catalog-entry issue per surviving entry, each attributed to the
root package and carrying the entry's dependency name, catalog name and
pinned version; each appended issue is a warning (the warning count grows
by exactly the number of surviving entries and the error count is
unchanged). -/
theorem c7_unused_entry_per_survivor (c : WorkspaceCatalogs)
    (r : List CatalogEntry) (il : IssuesList)
    (hv : ∀ e ∈ r, (get_version c e).isSome = true)
    (hig : il.ignored_rules.contains "unused-catalog-entry" = false) :
    (emitUnused c r il).issues
        = il.issues ++ r.map (fun e => (PackageType.Root,
            Issue.UnusedCatalogEntry e.dependency_name e.catalog_name
              ((get_version c e).getD "")))
      ∧ (emitUnused c r il).warnings_count = il.warnings_count + r.length
      ∧ (emitUnused c r il).errors_count = il.errors_count := by
  have hiss : (emitUnused c r il).issues
      = il.issues ++ r.map (fun e => (PackageType.Root,
          Issue.UnusedCatalogEntry e.dependency_name e.catalog_name
            ((get_version c e).getD ""))) := by
    rw [emitUnused_eq, filterMap_unused_map c il.ignored_rules hig r hv]
    rfl
  refine ⟨hiss, ?_, ?_⟩
  · rw [IssuesList.warnings_count, IssuesList.warnings_count, hiss,
      List.filter_append, List.length_append]
    have : (r.map fun e => ((PackageType.Root : PackageType),
        Issue.UnusedCatalogEntry e.dependency_name e.catalog_name
          ((get_version c e).getD ""))).filter
            (fun pr => pr.2.level == IssueLevel.warning)
        = r.map fun e => (PackageType.Root,
            Issue.UnusedCatalogEntry e.dependency_name e.catalog_name
              ((get_version c e).getD "")) := by
      apply List.filter_eq_self.mpr
      intro a ha
      obtain ⟨e, _, rfl⟩ := List.mem_map.mp ha
      rfl
    rw [this, List.length_map]
  · rw [IssuesList.errors_count, IssuesList.errors_count, hiss,
      List.filter_append, List.length_append]
    have : (r.map fun e => ((PackageType.Root : PackageType),
        Issue.UnusedCatalogEntry e.dependency_name e.catalog_name
          ((get_version c e).getD ""))).filter
            (fun pr => pr.2.level == IssueLevel.error) = [] := by
      apply List.filter_eq_nil_iff.mpr
      intro a ha
      obtain ⟨e, _, rfl⟩ := List.mem_map.mp ha
      simp [Issue.level]
    rw [this]
    rfl

/-- Witness for C7 on a single surviving named-catalog entry. -/
theorem c7_witness :
    (emitUnused ⟨[], [("legacy", [("jquery", "^3.6.0")])]⟩
        [⟨some "legacy", "jquery"⟩] (IssuesList.new [])).issues
        = (IssuesList.new []).issues
            ++ [(⟨some "legacy", "jquery"⟩ : CatalogEntry)].map
                (fun e => (PackageType.Root,
                  Issue.UnusedCatalogEntry e.dependency_name e.catalog_name
                    ((get_version ⟨[], [("legacy", [("jquery", "^3.6.0")])]⟩ e).getD ""))) :=
  (c7_unused_entry_per_survivor ⟨[], [("legacy", [("jquery", "^3.6.0")])]⟩
      [⟨some "legacy", "jquery"⟩] (IssuesList.new [])
      (by decide) (by decide)).1

theorem foldl_add_eq (ign : List String) :
    ∀ (adds : List (PackageType × Issue)) (il : IssuesList),
    il.ignored_rules = ign →
    (adds.foldl (fun acc pr => acc.add pr.1 pr.2) il).issues
      = il.issues ++ adds.filter (fun pr => !(ign.contains pr.2.name))
  | [], il, _ => by simp
  | pr :: rest, il, hil => by
      rw [List.foldl_cons,
        foldl_add_eq ign rest (il.add pr.1 pr.2)
          (by rw [add_eq]; exact hil),
        add_eq, hil]
      cases h : ign.contains pr.2.name <;> simp at h <;>
        simp [appendIssues, List.filter_cons, h]

/-- C8: folding any sequence of add calls over a fresh `IssuesList`
yields exactly the insertion-ordered subsequence of pairs whose rule name
is not ignored, so insertion order is preserved and an ignored rule name
never appears in the list. -/
theorem c8_issues_list_invariant (ign : List String)
    (adds : List (PackageType × Issue)) :
    (adds.foldl (fun acc pr => acc.add pr.1 pr.2) (IssuesList.new ign)).issues
        = adds.filter (fun pr => !(ign.contains pr.2.name))
      ∧ (adds.foldl (fun acc pr => acc.add pr.1 pr.2) (IssuesList.new ign)).issues.all
          (fun pr => !(ign.contains pr.2.name)) = true := by
  have hiss := foldl_add_eq ign adds (IssuesList.new ign) rfl
  rw [show (IssuesList.new ign).issues = [] from rfl, List.nil_append] at hiss
  refine ⟨hiss, ?_⟩
  rw [hiss]
  apply List.all_eq_true.mpr
  intro pr hpr
  exact (List.mem_filter.mp hpr).2

theorem is_empty_counts (il : IssuesList) (h : il.is_empty = true) :
    il.errors_count = 0 ∧ il.warnings_count = 0 := by
  have : il.issues = [] := List.isEmpty_iff.mp h
  rw [IssuesList.errors_count, IssuesList.warnings_count, this]
  exact ⟨rfl, rfl⟩

/-- C9: the exit code is 0 iff loading succeeded with no errors and (the
fail-on-warnings flag unset or no warnings); it is 1 on every load
failure, and on success it is 1 iff there is an error or the flag is set
and there is a warning. -/
theorem c9_exit_code (b : Bool) (r : LoadResult) :
    (∀ il, r = LoadResult.success il →
       (exitCode b r = 0 ↔ (il.errors_count = 0 ∧ (b = false ∨ il.warnings_count = 0))))
    ∧ ((r = LoadResult.invalidPath ∨ r = LoadResult.workspaceError
          ∨ r = LoadResult.manifestError) → exitCode b r = 1)
    ∧ (∀ il, r = LoadResult.success il →
       (exitCode b r = 1 ↔ (il.errors_count > 0 ∨ (b = true ∧ il.warnings_count > 0)))) := by
  refine ⟨?_, ?_, ?_⟩
  · intro il hil
    subst hil
    cases hemp : il.is_empty with
    | true =>
        obtain ⟨he, hw⟩ := is_empty_counts il hemp
        simp [exitCode, hemp, he, hw]
    | false =>
        by_cases hc : il.errors_count > 0 ∨ (b = true ∧ il.warnings_count > 0)
        · rw [show exitCode b (LoadResult.success il) = 1
            from by simp [exitCode, hemp, hc]]
          constructor
          · intro h01
            exact absurd h01 (by simp)
          · intro ⟨he, hw⟩
            rcases hc with hc | ⟨hb, hc⟩
            · omega
            · subst hb
              rcases hw with hw | hw
              · exact absurd hw (by simp)
              · omega
        · rw [show exitCode b (LoadResult.success il) = 0
            from by simp [exitCode, hemp, hc]]
          constructor
          · intro _
            constructor
            · omega
            · cases b with
              | false => exact Or.inl rfl
              | true =>
                  refine Or.inr ?_
                  by_contra hw
                  exact hc (Or.inr ⟨rfl, by omega⟩)
          · intro _
            rfl
  · intro hfail
    rcases hfail with h | h | h <;> subst h <;> rfl
  · intro il hil
    subst hil
    cases hemp : il.is_empty with
    | true =>
        obtain ⟨he, hw⟩ := is_empty_counts il hemp
        simp [exitCode, hemp, he, hw]
    | false =>
        by_cases hc : il.errors_count > 0 ∨ (b = true ∧ il.warnings_count > 0)
        · simp [exitCode, hemp, hc]
        · simp [exitCode, hemp, hc]

/-- Witness for C9: a successful run with an empty issue list exits 0. -/
theorem c9_witness :
    exitCode false (LoadResult.success (IssuesList.new [])) = 0 :=
  ((c9_exit_code false (LoadResult.success (IssuesList.new []))).1
      (IssuesList.new []) rfl).mpr ⟨rfl, Or.inl rfl⟩

theorem find?_key_nodup :
    ∀ (l : List (String × List (String × String)))
      (p : String × List (String × String)),
    (l.map Prod.fst).Nodup → p ∈ l → l.find? (fun r => r.1 == p.1) = some p
  | [], p, _, hp => absurd hp (List.not_mem_nil p)
  | h :: t, p, hnd, hp => by
      rw [List.map_cons, List.nodup_cons] at hnd
      rcases List.mem_cons.mp hp with rfl | hpt
      · exact List.find?_cons_of_pos t (by simp)
      · have hne : ¬((h.1 == p.1) = true) := by
          intro hbeq
          rw [beq_iff_eq] at hbeq
          exact hnd.1 (hbeq ▸ List.mem_map_of_mem Prod.fst hpt)
        rw [List.find?_cons_of_neg t hne]
        exact find?_key_nodup t p hnd.2 hpt

theorem get_version_isSome_of_mem (c : WorkspaceCatalogs)
    (hnd : (c.named.map Prod.fst).Nodup) :
    ∀ e ∈ all_entries c, (get_version c e).isSome = true := by
  intro e he
  rcases List.mem_append.mp he with hL | hR
  · obtain ⟨p, hp, rfl⟩ := List.mem_map.mp hL
    simp only [get_version, mapGet, Option.isSome_map']
    refine List.find?_isSome.mpr ⟨p, hp, ?_⟩
    exact beq_self_eq_true p.1
  · obtain ⟨p, hp, he2⟩ := List.mem_flatMap.mp hR
    obtain ⟨q, hq, rfl⟩ := List.mem_map.mp he2
    have hfind := find?_key_nodup c.named p hnd hp
    simp only [get_version, lookupNamed, hfind, Option.map_some', mapGet,
      Option.isSome_map']
    refine List.find?_isSome.mpr ⟨q, hq, ?_⟩
    exact beq_self_eq_true q.1

/-- C10: every entry of `all_entries` has a version (`get_version` is
`some` on it); the working set only shrinks during the pass (the
survivors are a subset of `all_entries`); and consequently the version
guard of the final loop skips nothing — the engine's issue count is the
pass-emitted count plus exactly one warning per surviving entry. -/
theorem c10_get_version_total (c : WorkspaceCatalogs)
    (hnd : (c.named.map Prod.fst).Nodup) :
    (∀ e ∈ all_entries c, (get_version c e).isSome = true)
    ∧ (∀ (pk : List Package) (pI dI rI : List String),
        (runPkgs c pI dI pk (all_entries c, IssuesList.new rI)).1 ⊆ all_entries c)
    ∧ (∀ (pk : List Package) (pI dI rI : List String),
        rI.contains "unused-catalog-entry" = false →
        (collect_issues pk c rI pI dI).issues.length
          = (runPkgs c pI dI pk (all_entries c, IssuesList.new rI)).2.issues.length
            + (runPkgs c pI dI pk (all_entries c, IssuesList.new rI)).1.length) := by
  refine ⟨get_version_isSome_of_mem c hnd, ?_, ?_⟩
  · intro pk pI dI rI
    rw [runPkgs_eq]
    exact List.filter_subset' (all_entries c)
  · intro pk pI dI rI hig
    rw [collect_issues, collect_issuesFrom]
    rw [runPkgs_eq c pI dI pk (all_entries c) (IssuesList.new rI)]
    rw [emitUnused_eq]
    rw [filterMap_unused_map c (appendIssues (IssuesList.new rI)
          (pkgsEmits c (IssuesList.new rI).ignored_rules pI dI pk)).ignored_rules
        (by exact hig)
        ((all_entries c).filter (pkgsKeep c pI dI pk))
        (fun e he => get_version_isSome_of_mem c hnd e
          (List.filter_subset' (all_entries c) he))]
    simp only [appendIssues, List.length_append, List.length_map]

/-- Witness for C10 on a two-catalog workspace with no packages: both
entries survive and both produce their warning. -/
theorem c10_witness :
    (collect_issues [] ⟨[("react", "^18.2.0")], [("legacy", [("jquery", "^3.6.0")])]⟩
        [] [] []).issues.length
      = (runPkgs ⟨[("react", "^18.2.0")], [("legacy", [("jquery", "^3.6.0")])]⟩
          [] [] []
          (all_entries ⟨[("react", "^18.2.0")], [("legacy", [("jquery", "^3.6.0")])]⟩,
           IssuesList.new [])).2.issues.length
        + (runPkgs ⟨[("react", "^18.2.0")], [("legacy", [("jquery", "^3.6.0")])]⟩
            [] [] []
            (all_entries ⟨[("react", "^18.2.0")], [("legacy", [("jquery", "^3.6.0")])]⟩,
             IssuesList.new [])).1.length :=
  (c10_get_version_total ⟨[("react", "^18.2.0")], [("legacy", [("jquery", "^3.6.0")])]⟩
      (by decide)).2.2 [] [] [] [] (by decide)

end PnpmCatalogLint
